import Mathlib

/-!
Verification of the DeFi liquidity simulation (constant-product AMM,
market environment stepper, tabular Q-learning policy).

The Python source works with floats; the embedding uses exact rationals
(ℚ), with Python's `x / y if y != 0 else 0` guards mapped onto Lean's
total division (which also returns 0 on a zero denominator).
-/

/-- The near-zero threshold `1e-12` used throughout `amms.py`. -/
def eps : ℚ := 1 / 10 ^ 12

/-- State of `ConstantProductAMM` (amms.py): reserves, the cached invariant
`K`, liquidity shares, and the fee rate fixed at construction. -/
structure ConstantProductAMM where
  fee_rate : ℚ
  reserveA : ℚ
  reserveB : ℚ
  K : ℚ
  liquidity_shares : ℚ
deriving DecidableEq, Repr

/-- `ConstantProductAMM.__init__`: empty pool with the given fee rate. -/
def ConstantProductAMM.init (fee_rate : ℚ) : ConstantProductAMM :=
  { fee_rate := fee_rate, reserveA := 0, reserveB := 0, K := 0, liquidity_shares := 0 }

/-- `ConstantProductAMM.add_liquidity`.  The source also computes `ratioA`
and `ratioB` on the non-initial path, but never uses them; that dead code
is omitted.  Returns the updated pool and the boolean result (always
`true` in the source). -/
def ConstantProductAMM.add_liquidity (p : ConstantProductAMM)
    (amount_tokenA amount_tokenB : ℚ) : ConstantProductAMM × Bool :=
  if p.reserveA < eps ∨ p.reserveB < eps then
    ({ p with
        reserveA := amount_tokenA
        reserveB := amount_tokenB
        K := amount_tokenA * amount_tokenB
        liquidity_shares := p.liquidity_shares + (amount_tokenA + amount_tokenB) }, true)
  else
    let reserveA' := p.reserveA + amount_tokenA
    let reserveB' := p.reserveB + amount_tokenB
    let denominator := reserveA' - amount_tokenA
    let shares_minted :=
      if |denominator| < eps then amount_tokenA + amount_tokenB
      else (p.liquidity_shares * amount_tokenA) / denominator
    ({ p with
        reserveA := reserveA'
        reserveB := reserveB'
        K := reserveA' * reserveB'
        liquidity_shares := p.liquidity_shares + shares_minted }, true)

/-- `ConstantProductAMM.remove_liquidity`: clamp the fraction to 0.999,
no-op (returning `none`) on a negative fraction, otherwise withdraw
proportionally, burn shares, recompute `K`, and return the withdrawn
amounts. -/
def ConstantProductAMM.remove_liquidity (p : ConstantProductAMM)
    (fraction : ℚ) : ConstantProductAMM × Option (ℚ × ℚ) :=
  let fraction := min fraction (999 / 1000)
  if fraction < 0 then (p, Option.none)
  else
    let amountA_out := p.reserveA * fraction
    let amountB_out := p.reserveB * fraction
    let reserveA' := p.reserveA - amountA_out
    let reserveB' := p.reserveB - amountB_out
    let shares_to_burn := p.liquidity_shares * fraction
    ({ p with
        reserveA := reserveA'
        reserveB := reserveB'
        K := reserveA' * reserveB'
        liquidity_shares := p.liquidity_shares - shares_to_burn },
      Option.some (amountA_out, amountB_out))

/-- `ConstantProductAMM.swap`: early-return 0 on non-positive input or a
degenerate pool; otherwise apply the fee and update the reserves by the
constant-product rule, clamping the output at 0 and recomputing `K`.  Any
direction other than `"buy"` takes the `"sell"` branch, as in the source. -/
def ConstantProductAMM.swap (p : ConstantProductAMM)
    (amount_in : ℚ) (direction : String) : ConstantProductAMM × ℚ :=
  if amount_in ≤ 0 then (p, 0)
  else if p.reserveA < eps ∨ p.reserveB < eps then (p, 0)
  else if direction = "buy" then
    let amount_in_after_fee := amount_in * (1 - p.fee_rate)
    let new_reserveB := p.reserveB + amount_in_after_fee
    let new_reserveA := if new_reserveB ≠ 0 then p.K / new_reserveB else 0
    let amount_out := p.reserveA - new_reserveA
    let amount_out := if amount_out < 0 then 0 else amount_out
    ({ p with
        reserveA := new_reserveA
        reserveB := new_reserveB
        K := new_reserveA * new_reserveB }, amount_out)
  else
    let amount_in_after_fee := amount_in * (1 - p.fee_rate)
    let new_reserveA := p.reserveA + amount_in_after_fee
    let new_reserveB := if new_reserveA ≠ 0 then p.K / new_reserveA else 0
    let amount_out := p.reserveB - new_reserveB
    let amount_out := if amount_out < 0 then 0 else amount_out
    ({ p with
        reserveA := new_reserveA
        reserveB := new_reserveB
        K := new_reserveA * new_reserveB }, amount_out)

/-- `ConstantProductAMM.get_price`: `reserveB / reserveA`, or 0 on a
near-empty `reserveA`. -/
def ConstantProductAMM.get_price (p : ConstantProductAMM) : ℚ :=
  if p.reserveA < eps then 0 else p.reserveB / p.reserveA

/-- `ConstantProductAMM.total_liquidity_shares`. -/
def ConstantProductAMM.total_liquidity_shares (p : ConstantProductAMM) : ℚ :=
  p.liquidity_shares

/-- A call on the public surface of `ConstantProductAMM`, for reasoning
about arbitrary call sequences.  `getPrice` and `totalShares` are read-only. -/
inductive AMMOp where
  | addLiquidity (amount_tokenA amount_tokenB : ℚ)
  | removeLiquidity (fraction : ℚ)
  | swapOp (amount_in : ℚ) (direction : String)
  | getPrice
  | totalShares
deriving DecidableEq, Repr

/-- The pool state after one call (ignoring the value returned to the caller). -/
def applyOp (p : ConstantProductAMM) : AMMOp → ConstantProductAMM
  | AMMOp.addLiquidity a b => (p.add_liquidity a b).1
  | AMMOp.removeLiquidity f => (p.remove_liquidity f).1
  | AMMOp.swapOp a d => (p.swap a d).1
  | AMMOp.getPrice => p
  | AMMOp.totalShares => p

/-- The pool state after a sequence of calls. -/
def runOps (p : ConstantProductAMM) (ops : List AMMOp) : ConstantProductAMM :=
  ops.foldl applyOp p

/-- The per-tick observation handed to agents (`env_state` in the source):
AMM price, reference price at the current step, and the step index. -/
structure Obs where
  amm_price : ℚ
  reference_price : ℚ
  step : ℕ
deriving DecidableEq, Repr

/-- The action dictionary an agent returns, as a tagged variant.  A `trade`
carries a direction string (any string other than `"buy"` is treated as a
sell by the AMM) and an amount. -/
inductive AgentAction where
  | trade (direction : String) (amount : ℚ)
  | add_liquidity (amount_tokenA amount_tokenB : ℚ)
  | remove_liquidity (amount_tokenA amount_tokenB : ℚ)
  | noneAction
deriving DecidableEq, Repr

/-- An agent: a name plus its `act` function from observation to action. -/
structure Agent where
  name : String
  act : Obs → AgentAction

/-- State of `MarketEnvironment` (environment.py).  The Python rewards
dictionary (keyed by agent names) is modelled as a total function from
names to rationals; only roster names are ever touched. -/
structure MarketEnvironment where
  amm : ConstantProductAMM
  agents : List Agent
  reference_prices : List ℚ
  current_step : ℕ
  rewards : String → ℚ
  total_volume_tokenA : ℚ
  total_volume_tokenB : ℚ

/-- `MarketEnvironment.__init__`: in the source the rewards dictionary is
created with every roster name mapped to 0.0. -/
def MarketEnvironment.init (amm : ConstantProductAMM) (agents : List Agent)
    (reference_prices : List ℚ) : MarketEnvironment :=
  { amm := amm, agents := agents, reference_prices := reference_prices,
    current_step := 0, rewards := fun _ => 0,
    total_volume_tokenA := 0, total_volume_tokenB := 0 }

/-- Pointwise update of the rewards map: add `delta` at `name`. -/
def updateReward (r : String → ℚ) (name : String) (delta : ℚ) : String → ℚ :=
  fun n => if n = name then r n + delta else r n

/-- The `for agent in self.agents: self.rewards[agent.name] = 0.0` loop of
`MarketEnvironment.reset`. -/
def zeroRewards (agents : List Agent) (r : String → ℚ) : String → ℚ :=
  agents.foldl (fun acc ag => fun n => if n = ag.name then 0 else acc n) r

/-- `MarketEnvironment.reset`: step back to 0, zero every roster agent's
reward and both volume counters; the AMM is not touched. -/
def MarketEnvironment.reset (env : MarketEnvironment) : MarketEnvironment :=
  { env with
      current_step := 0
      rewards := zeroRewards env.agents env.rewards
      total_volume_tokenA := 0
      total_volume_tokenB := 0 }

/-- The body of the per-agent action dispatch inside `MarketEnvironment.step`,
applied at the reference price of the current tick. -/
def applyAction (current_price : ℚ) (env : MarketEnvironment)
    (pair : Agent × AgentAction) : MarketEnvironment :=
  match pair.2 with
  | AgentAction.trade direction amount_in =>
    if 0 < amount_in then
      let res := env.amm.swap amount_in direction
      let tokens_received := res.2
      if direction = "buy" then
        { env with
            amm := res.1
            rewards := updateReward env.rewards pair.1.name
              (tokens_received * current_price - amount_in)
            total_volume_tokenB := env.total_volume_tokenB + amount_in }
      else
        { env with
            amm := res.1
            rewards := updateReward env.rewards pair.1.name
              (tokens_received - amount_in * current_price)
            total_volume_tokenA := env.total_volume_tokenA + amount_in }
    else env
  | AgentAction.add_liquidity amountA amountB =>
    if 0 < amountA ∧ 0 < amountB then
      { env with amm := (env.amm.add_liquidity amountA amountB).1 }
    else env
  | AgentAction.remove_liquidity fractionA fractionB =>
    let fraction := min fractionA fractionB
    let res := env.amm.remove_liquidity fraction
    match res.2 with
    | Option.some (outA, outB) =>
      { env with
          amm := res.1
          rewards := updateReward env.rewards pair.1.name
            (outA * current_price + outB) }
    | Option.none => { env with amm := res.1 }
  | AgentAction.noneAction => env

/-- `MarketEnvironment.step`: returns `(env, false)` once the step counter
reaches the number of reference prices; otherwise all agents observe the
same pre-tick state, their actions are applied in roster order, and the
step counter advances. -/
def MarketEnvironment.step (env : MarketEnvironment) : MarketEnvironment × Bool :=
  if env.reference_prices.length ≤ env.current_step then (env, false)
  else
    let current_price := env.reference_prices.getD env.current_step 0
    let amm_price := env.amm.get_price
    let obs : Obs :=
      { amm_price := amm_price, reference_price := current_price,
        step := env.current_step }
    let actions := env.agents.map (fun ag => (ag, ag.act obs))
    let env' := actions.foldl (applyAction current_price) env
    ({ env' with current_step := env'.current_step + 1 }, true)

/-- Fuelled version of the `while self.step(): pass` loop: iterate `step`
while it reports success.  A false-returning `step` leaves the state
unchanged, so any fuel of at least `reference_prices.length + 1` computes
the loop's fixpoint exactly. -/
def loopSteps : ℕ → MarketEnvironment → MarketEnvironment
  | 0, env => env
  | Nat.succ n, env =>
    let r := env.step
    if r.2 then loopSteps n r.1 else r.1

/-- `MarketEnvironment.run_simulation`: reset, then step until terminal.
After `reset` the step counter is 0 and each successful `step` advances it
by exactly 1, so `reference_prices.length + 1` iterations reach the
terminal state. -/
def MarketEnvironment.run_simulation (env : MarketEnvironment) : MarketEnvironment :=
  loopSteps (env.reference_prices.length + 1) env.reset

/-- State of `SimpleQPolicy` (rl_utils.py).  The Q-table (a fixed-size
numpy array in the source, indexed within bounds by construction) is
modelled as a total function on indices.  `last_state` and `last_action`
are the pending-selection slots, set together by `select_action` and
cleared together by `update_q`. -/
structure SimpleQPolicy where
  num_price_buckets : ℕ
  num_time_buckets : ℕ
  alpha : ℚ
  gamma : ℚ
  epsilon : ℚ
  q_table : ℕ → ℕ → ℕ → ℚ
  last_state : Option (ℕ × ℕ)
  last_action : Option ℕ

/-- `SimpleQPolicy._discretize_state`: floor-divide the shifted price
difference by the bucket size (Python `//` is floor division), clamp into
`[0, num_price_buckets - 1]`, and take the step modulo the number of time
buckets. -/
def SimpleQPolicy.discretize_state (p : SimpleQPolicy) (env_state : Obs) : ℕ × ℕ :=
  let price_diff := env_state.reference_price - env_state.amm_price
  let bucket_size : ℚ := 1 / 50
  let bucket : ℤ := Int.floor ((price_diff + p.num_price_buckets * bucket_size) / bucket_size)
  let bucket : ℤ := max 0 (min ((p.num_price_buckets : ℤ) - 1) bucket)
  (bucket.toNat, env_state.step % p.num_time_buckets)

/-- `SimpleQPolicy.update_q`: no-op when no selection is pending; otherwise
apply the one-step Q-learning correction at the pending (state, action)
entry and clear the pending slots.  (In the source `last_action` is always
set whenever `last_state` is; the `getD 0` default is unreachable.) -/
def SimpleQPolicy.update_q (p : SimpleQPolicy) (reward : ℚ) (new_env_state : Obs)
    (done : Bool) : SimpleQPolicy :=
  match p.last_state with
  | Option.none => p
  | Option.some s =>
    let a := p.last_action.getD 0
    let target :=
      if done then reward
      else
        let s_next := p.discretize_state new_env_state
        reward + p.gamma *
          max (max (p.q_table s_next.1 s_next.2 0) (p.q_table s_next.1 s_next.2 1))
            (p.q_table s_next.1 s_next.2 2)
    { p with
        q_table := fun i j k =>
          if i = s.1 ∧ j = s.2 ∧ k = a then
            p.q_table i j k + p.alpha * (target - p.q_table i j k)
          else p.q_table i j k
        last_state := Option.none
        last_action := Option.none }

/-- The pool of the spec's end-to-end swap scenario: `addLiquidity(1000, 1200)`
on a fresh pool with fee rate 0.003, giving reserves (1000, 1200), K = 1200000. -/
def pool_c1 : ConstantProductAMM :=
  ((ConstantProductAMM.init (3 / 1000)).add_liquidity 1000 1200).1

/-- A concrete non-degenerate zero-fee pool with `K = reserveA * reserveB`. -/
def pool_c3 : ConstantProductAMM :=
  { fee_rate := 0, reserveA := 1, reserveB := 2, K := 2, liquidity_shares := 3 }

/-- A concrete non-degenerate pool used to exercise `remove_liquidity`. -/
def pool_c4 : ConstantProductAMM :=
  { fee_rate := 3 / 1000, reserveA := 2, reserveB := 3, K := 6, liquidity_shares := 5 }

/-- The pool of the spec's end-to-end removal scenario: reserves (200, 300). -/
def pool_c7 : ConstantProductAMM :=
  ((ConstantProductAMM.init (3 / 1000)).add_liquidity 200 300).1

/-- A scripted agent that always proposes `removeLiquidity(0.5, 0.5)`. -/
def agent_c7 : Agent :=
  { name := "lp", act := fun _ => AgentAction.remove_liquidity (1 / 2) (1 / 2) }

/-- Environment of the removal scenario: single scripted agent, pool (200, 300),
reference price 1.5 at step 0. -/
def env_c7 : MarketEnvironment :=
  MarketEnvironment.init pool_c7 [agent_c7] [3 / 2]

/-- A scripted agent that always proposes a buy of 5 units of token B. -/
def agent_c9 : Agent :=
  { name := "trader", act := fun _ => AgentAction.trade ("buy") 5 }

/-- Environment with a degenerate (freshly constructed, empty) pool. -/
def env_c9 : MarketEnvironment :=
  MarketEnvironment.init (ConstantProductAMM.init (3 / 1000)) [agent_c9] [2]

/-- A pool left dirty by earlier activity: reserves (50, 70). -/
def dirtyAMM : ConstantProductAMM :=
  ((ConstantProductAMM.init (3 / 1000)).add_liquidity 50 70).1

/-- A scripted agent that always buys 10 units. -/
def dirtyAgent : Agent :=
  { name := "t", act := fun _ => AgentAction.trade ("buy") 10 }

/-- Environment holding the dirty pool: `run_simulation` replays on it. -/
def dirtyEnv : MarketEnvironment :=
  MarketEnvironment.init dirtyAMM [dirtyAgent] [1]

/-- A concrete Q-policy with a pending selection at state (2, 3), action 1. -/
def policy_c8 : SimpleQPolicy :=
  { num_price_buckets := 5, num_time_buckets := 10, alpha := 1 / 10, gamma := 19 / 20,
    epsilon := 1 / 10, q_table := fun _ _ _ => 0,
    last_state := Option.some (2, 3), last_action := Option.some 1 }

/-- A concrete observation for the Q-policy update. -/
def obs_c8 : Obs := { amm_price := 1, reference_price := 1, step := 4 }

/-- Degenerate-swap helper: with a non-positive input or a near-empty
reserve, `swap` returns the pool unchanged together with output 0. -/
theorem swap_degenerate (p : ConstantProductAMM) (amount_in : ℚ) (direction : String)
    (h : amount_in ≤ 0 ∨ p.reserveA < eps ∨ p.reserveB < eps) :
    p.swap amount_in direction = (p, 0) := by
  unfold ConstantProductAMM.swap
  rcases h with h | h
  · rw [if_pos h]
  · by_cases ha : amount_in ≤ 0
    · rw [if_pos ha]
    · rw [if_neg ha, if_pos h]

/-- One AMM call preserves the cached-invariant property `K = reserveA * reserveB`. -/
theorem applyOp_K_inv (p : ConstantProductAMM) (op : AMMOp)
    (h : p.K = p.reserveA * p.reserveB) :
    (applyOp p op).K = (applyOp p op).reserveA * (applyOp p op).reserveB := by
  cases op with
  | addLiquidity a b =>
    simp only [applyOp, ConstantProductAMM.add_liquidity]
    split
    · rfl
    · rfl
  | removeLiquidity f =>
    simp only [applyOp, ConstantProductAMM.remove_liquidity]
    split
    · exact h
    · rfl
  | swapOp a d =>
    simp only [applyOp, ConstantProductAMM.swap]
    split
    · exact h
    · split
      · exact h
      · split
        · rfl
        · rfl
  | getPrice => exact h
  | totalShares => exact h

/-- Any sequence of AMM calls preserves `K = reserveA * reserveB`. -/
theorem runOps_K_inv (ops : List AMMOp) (p : ConstantProductAMM)
    (h : p.K = p.reserveA * p.reserveB) :
    (runOps p ops).K = (runOps p ops).reserveA * (runOps p ops).reserveB := by
  induction ops generalizing p with
  | nil => exact h
  | cons op ops ih =>
    simp only [runOps, List.foldl_cons] at *
    exact ih (applyOp p op) (applyOp_K_inv p op h)

/-- C2: starting from a newly constructed `ConstantProductAMM` and applying
any finite sequence of `add_liquidity`, `remove_liquidity`, `swap`,
`get_price`, and `total_liquidity_shares` calls with arbitrary arguments,
after every call the stored field `K` equals `reserveA * reserveB` — it is a
derived cache recomputed from the current reserves, preserved in particular
across the early-return branches that leave the reserves unchanged. -/
theorem C2_K_is_derived_cache (fee_rate : ℚ) (ops : List AMMOp) :
    (runOps (ConstantProductAMM.init fee_rate) ops).K =
      (runOps (ConstantProductAMM.init fee_rate) ops).reserveA *
        (runOps (ConstantProductAMM.init fee_rate) ops).reserveB := by
  apply runOps_K_inv
  simp [ConstantProductAMM.init]

/-- C5: for every pool state, every direction string, and every input, if
the input is non-positive or either reserve is below epsilon, then `swap`
returns 0 and leaves the whole pool state (reserves, `K`, shares)
unchanged. -/
theorem C5_swap_silent_noop (p : ConstantProductAMM) (amount_in : ℚ) (direction : String)
    (h : amount_in ≤ 0 ∨ p.reserveA < eps ∨ p.reserveB < eps) :
    p.swap amount_in direction = (p, 0) :=
  swap_degenerate p amount_in direction h

/-- C5 witness: a swap on a freshly constructed (empty) pool with a positive
input, and a swap with a negative input on a funded pool, are both no-ops. -/
theorem C5_witness :
    (ConstantProductAMM.init (3 / 1000)).swap 5 ("buy")
      = (ConstantProductAMM.init (3 / 1000), 0) ∧
    pool_c4.swap (-2) ("sell") = (pool_c4, 0) := by
  constructor
  · exact C5_swap_silent_noop _ 5 ("buy")
      (Or.inr (Or.inl (by norm_num [ConstantProductAMM.init, eps])))
  · exact C5_swap_silent_noop pool_c4 (-2) ("sell") (Or.inl (by norm_num))

/-- C3: for every pool with zero fee rate, both reserves at least epsilon,
and `K = reserveA * reserveB`, and every positive input and direction in
buy/sell, the product of the reserves after `swap` is exactly the product
before the swap. -/
theorem C3_zero_fee_swap_preserves_K (p : ConstantProductAMM) (amount_in : ℚ)
    (direction : String) (hfee : p.fee_rate = 0) (hA : eps ≤ p.reserveA)
    (hB : eps ≤ p.reserveB) (hK : p.K = p.reserveA * p.reserveB)
    (hin : 0 < amount_in) (hdir : direction = "buy" ∨ direction = "sell") :
    (p.swap amount_in direction).1.reserveA * (p.swap amount_in direction).1.reserveB
      = p.reserveA * p.reserveB := by
  have heps : (0 : ℚ) < eps := by norm_num [eps]
  have hA0 : 0 < p.reserveA := lt_of_lt_of_le heps hA
  have hB0 : 0 < p.reserveB := lt_of_lt_of_le heps hB
  have h1 : ¬ (amount_in ≤ 0) := not_le.mpr hin
  have h2 : ¬ (p.reserveA < eps ∨ p.reserveB < eps) := by
    push_neg
    exact ⟨hA, hB⟩
  rcases hdir with hd | hd <;> subst hd
  · rw [ConstantProductAMM.swap, if_neg h1, if_neg h2, if_pos rfl]
    have hne : p.reserveB + amount_in * (1 - p.fee_rate) ≠ 0 := by
      rw [hfee]
      nlinarith
    dsimp only
    rw [if_pos hne, div_mul_cancel₀ _ hne, hK]
  · rw [ConstantProductAMM.swap, if_neg h1, if_neg h2,
      if_neg (by decide : ¬ ("sell" : String) = "buy")]
    have hne : p.reserveA + amount_in * (1 - p.fee_rate) ≠ 0 := by
      rw [hfee]
      nlinarith
    dsimp only
    rw [if_pos hne, mul_comm, div_mul_cancel₀ _ hne, hK, mul_comm]

/-- C3 witness: on the zero-fee pool (1, 2) with K = 2, buying with input 1
leaves the reserve product at 2. -/
theorem C3_witness :
    pool_c3.fee_rate = 0 ∧ eps ≤ pool_c3.reserveA ∧ eps ≤ pool_c3.reserveB ∧
    pool_c3.K = pool_c3.reserveA * pool_c3.reserveB ∧ (0 : ℚ) < 1 ∧
    (pool_c3.swap 1 ("buy")).1.reserveA * (pool_c3.swap 1 ("buy")).1.reserveB
      = pool_c3.reserveA * pool_c3.reserveB := by
  refine ⟨rfl, by norm_num [pool_c3, eps], by norm_num [pool_c3, eps],
    by norm_num [pool_c3], by norm_num, ?_⟩
  exact C3_zero_fee_swap_preserves_K pool_c3 1 ("buy") rfl
    (by norm_num [pool_c3, eps]) (by norm_num [pool_c3, eps])
    (by norm_num [pool_c3]) (by norm_num) (Or.inl rfl)

/-- C4: `remove_liquidity` with a negative fraction is a no-op returning
`none`; with a non-negative fraction it uses the effective fraction
`min fraction 0.999`, subtracts that share of each reserve, burns that
share of the liquidity shares, recomputes `K` from the new reserves, and
returns the withdrawn pair; and `remove_liquidity 1` never empties the
pool — the post-state reserves are at least `(1 - 0.999)` times the
pre-state reserves. -/
theorem C4_remove_liquidity_spec (p : ConstantProductAMM) (f : ℚ) :
    (f < 0 → p.remove_liquidity f = (p, Option.none)) ∧
    (0 ≤ f →
      (p.remove_liquidity f).1.reserveA
          = p.reserveA - min f (999 / 1000) * p.reserveA ∧
      (p.remove_liquidity f).1.reserveB
          = p.reserveB - min f (999 / 1000) * p.reserveB ∧
      (p.remove_liquidity f).1.liquidity_shares
          = p.liquidity_shares - min f (999 / 1000) * p.liquidity_shares ∧
      (p.remove_liquidity f).1.K
          = (p.remove_liquidity f).1.reserveA * (p.remove_liquidity f).1.reserveB ∧
      (p.remove_liquidity f).2
          = Option.some (min f (999 / 1000) * p.reserveA,
              min f (999 / 1000) * p.reserveB)) ∧
    ((1 - 999 / 1000) * p.reserveA ≤ (p.remove_liquidity 1).1.reserveA ∧
     (1 - 999 / 1000) * p.reserveB ≤ (p.remove_liquidity 1).1.reserveB) := by
  refine ⟨?_, ?_, ?_⟩
  · intro hf
    rw [ConstantProductAMM.remove_liquidity]
    dsimp only
    rw [if_pos (lt_of_le_of_lt (min_le_left _ _) hf)]
  · intro hf
    have hnn : ¬ (min f (999 / 1000 : ℚ) < 0) :=
      not_lt.mpr (le_min hf (by norm_num))
    rw [ConstantProductAMM.remove_liquidity]
    dsimp only
    rw [if_neg hnn]
    refine ⟨by ring, by ring, by ring, rfl, ?_⟩
    dsimp only
    rw [mul_comm p.reserveA _, mul_comm p.reserveB _]
  · have hmin : min (1 : ℚ) (999 / 1000) = 999 / 1000 :=
      min_eq_right (by norm_num)
    have hnn : ¬ (min (1 : ℚ) (999 / 1000) < 0) := by
      rw [hmin]
      norm_num
    rw [ConstantProductAMM.remove_liquidity]
    dsimp only
    rw [if_neg hnn]
    dsimp only
    rw [hmin]
    constructor
    · exact le_of_eq (by ring)
    · exact le_of_eq (by ring)

/-- C4 witness: a removal with fraction -1 is a no-op returning `none`, and
a removal with fraction 1/2 returns half of each reserve. -/
theorem C4_witness :
    ((-1 : ℚ) < 0 ∧ pool_c4.remove_liquidity (-1) = (pool_c4, Option.none)) ∧
    ((0 : ℚ) ≤ 1 / 2 ∧
      (pool_c4.remove_liquidity (1 / 2)).2
        = Option.some (min (1 / 2 : ℚ) (999 / 1000) * pool_c4.reserveA,
            min (1 / 2 : ℚ) (999 / 1000) * pool_c4.reserveB)) := by
  refine ⟨⟨by norm_num, (C4_remove_liquidity_spec pool_c4 (-1)).1 (by norm_num)⟩,
    by norm_num, ((C4_remove_liquidity_spec pool_c4 (1 / 2)).2.1 (by norm_num)).2.2.2.2⟩

/-- C1 (amended): for every pool with both reserves at least epsilon and
`K = reserveA * reserveB`, and every positive input, `swap(amount_in, "buy")`
sets `reserveB' = reserveB + amount_in * (1 - fee_rate)`,
`reserveA' = K / reserveB'`, and returns `reserveA - reserveA'` clamped to
be at least 0; on the pool initialized via `addLiquidity(1000, 1200)` with
fee rate 0.003, `swap(100, "buy")` returns exactly
`1000 - (1000 * 1200) / (1200 + 100 * 0.997)` — which is `997000 / 12997`,
approximately 76.71 (not 79.67 as the spec's gloss has it). -/
theorem C1_swap_buy_formula :
    (∀ (p : ConstantProductAMM) (amount_in : ℚ),
      eps ≤ p.reserveA → eps ≤ p.reserveB → p.K = p.reserveA * p.reserveB →
      0 < amount_in →
      (p.swap amount_in ("buy")).1.reserveB
          = p.reserveB + amount_in * (1 - p.fee_rate) ∧
      (p.swap amount_in ("buy")).1.reserveA
          = p.K / (p.reserveB + amount_in * (1 - p.fee_rate)) ∧
      (p.swap amount_in ("buy")).2
          = max (p.reserveA - p.K / (p.reserveB + amount_in * (1 - p.fee_rate))) 0) ∧
    ((pool_c1.swap 100 ("buy")).2
        = 1000 - (1000 * 1200) / (1200 + 100 * (997 / 1000)) ∧
      (pool_c1.swap 100 ("buy")).2 = 997000 / 12997 ∧
      |(pool_c1.swap 100 ("buy")).2 - 7671 / 100| < 1 / 100) := by
  constructor
  · intro p amount_in hA hB hK hin
    have h1 : ¬ (amount_in ≤ 0) := not_le.mpr hin
    have h2 : ¬ (p.reserveA < eps ∨ p.reserveB < eps) := by
      push_neg
      exact ⟨hA, hB⟩
    rw [ConstantProductAMM.swap, if_neg h1, if_neg h2, if_pos rfl]
    dsimp only
    have hite : (if p.reserveB + amount_in * (1 - p.fee_rate) ≠ 0 then
          p.K / (p.reserveB + amount_in * (1 - p.fee_rate)) else 0)
        = p.K / (p.reserveB + amount_in * (1 - p.fee_rate)) := by
      by_cases hz : p.reserveB + amount_in * (1 - p.fee_rate) = 0
      · rw [if_neg (not_not_intro hz), hz, div_zero]
      · rw [if_pos hz]
    refine ⟨rfl, hite, ?_⟩
    rw [hite]
    by_cases hneg : p.reserveA - p.K / (p.reserveB + amount_in * (1 - p.fee_rate)) < 0
    · rw [if_pos hneg, max_eq_right (le_of_lt hneg)]
    · rw [if_neg hneg, max_eq_left (not_lt.mp hneg)]
  · refine ⟨?_, ?_, ?_⟩
    · norm_num [pool_c1, ConstantProductAMM.init, ConstantProductAMM.add_liquidity,
        ConstantProductAMM.swap, eps]
    · norm_num [pool_c1, ConstantProductAMM.init, ConstantProductAMM.add_liquidity,
        ConstantProductAMM.swap, eps]
    · have h : (pool_c1.swap 100 ("buy")).2 = 997000 / 12997 := by
        norm_num [pool_c1, ConstantProductAMM.init, ConstantProductAMM.add_liquidity,
          ConstantProductAMM.swap, eps]
      rw [h, abs_of_nonneg (by norm_num)]
      norm_num

/-- C1 counterexample: on the spec's own scenario the returned amount is
exactly `997000 / 12997` (about 76.71), which is not within 1 of the
spec's claimed approximation 79.67. -/
theorem C1_spec_gloss_refuted :
    (pool_c1.swap 100 ("buy")).2 = 997000 / 12997 ∧
    ¬ (|(pool_c1.swap 100 ("buy")).2 - 7967 / 100| < 1) := by
  have h : (pool_c1.swap 100 ("buy")).2 = 997000 / 12997 := by
    norm_num [pool_c1, ConstantProductAMM.init, ConstantProductAMM.add_liquidity,
      ConstantProductAMM.swap, eps]
  refine ⟨h, ?_⟩
  rw [h, abs_sub_comm, abs_of_nonneg (by norm_num)]
  norm_num

/-- C1 witness: the general buy-formula applied to the scenario pool with
input 100, all hypotheses discharged concretely. -/
theorem C1_witness :
    eps ≤ pool_c1.reserveA ∧ eps ≤ pool_c1.reserveB ∧
    pool_c1.K = pool_c1.reserveA * pool_c1.reserveB ∧ (0 : ℚ) < 100 ∧
    (pool_c1.swap 100 ("buy")).1.reserveB
      = pool_c1.reserveB + 100 * (1 - pool_c1.fee_rate) := by
  have hA : eps ≤ pool_c1.reserveA := by
    norm_num [pool_c1, ConstantProductAMM.init, ConstantProductAMM.add_liquidity, eps]
  have hB : eps ≤ pool_c1.reserveB := by
    norm_num [pool_c1, ConstantProductAMM.init, ConstantProductAMM.add_liquidity, eps]
  have hK : pool_c1.K = pool_c1.reserveA * pool_c1.reserveB := by
    norm_num [pool_c1, ConstantProductAMM.init, ConstantProductAMM.add_liquidity, eps]
  exact ⟨hA, hB, hK, by norm_num,
    (C1_swap_buy_formula.1 pool_c1 100 hA hB hK (by norm_num)).1⟩

/-- C6 (amended): for every a > 0 with a at least epsilon (1e-12) and every
b > 0, starting from an empty pool (both reserves 0), `add_liquidity(a, b)`
followed immediately by `get_price()` yields exactly b / a.  (For
0 < a < epsilon, `get_price` hits its near-empty guard and returns 0
instead.) -/
theorem C6_price_after_first_deposit (p : ConstantProductAMM) (a b : ℚ)
    (hA : p.reserveA = 0) (hB : p.reserveB = 0) (ha : 0 < a) (hb : 0 < b)
    (hae : eps ≤ a) :
    ((p.add_liquidity a b).1).get_price = b / a := by
  rw [ConstantProductAMM.add_liquidity,
    if_pos (Or.inl (by rw [hA]; norm_num [eps]))]
  rw [ConstantProductAMM.get_price]
  dsimp only
  rw [if_neg (not_lt.mpr hae)]

/-- C6 counterexample: with a = 1/10^13 (positive but below epsilon) and
b = 1, the pool is empty before the deposit, yet the price after the
deposit is not b / a — the near-empty guard of `get_price` returns 0. -/
theorem C6_counterexample :
    (0 : ℚ) < 1 / 10 ^ 13 ∧ (0 : ℚ) < 1 ∧
    (ConstantProductAMM.init (3 / 1000)).reserveA = 0 ∧
    (ConstantProductAMM.init (3 / 1000)).reserveB = 0 ∧
    (((ConstantProductAMM.init (3 / 1000)).add_liquidity (1 / 10 ^ 13) 1).1).get_price
      ≠ 1 / (1 / 10 ^ 13) := by
  refine ⟨by norm_num, by norm_num, rfl, rfl, ?_⟩
  norm_num [ConstantProductAMM.init, ConstantProductAMM.add_liquidity,
    ConstantProductAMM.get_price, eps]

/-- C6 witness: depositing (2, 3) into an empty pool gives price 3/2. -/
theorem C6_witness :
    (ConstantProductAMM.init (3 / 1000)).reserveA = 0 ∧
    (ConstantProductAMM.init (3 / 1000)).reserveB = 0 ∧
    (0 : ℚ) < 2 ∧ (0 : ℚ) < 3 ∧ eps ≤ (2 : ℚ) ∧
    (((ConstantProductAMM.init (3 / 1000)).add_liquidity 2 3).1).get_price
      = 3 / 2 := by
  refine ⟨rfl, rfl, by norm_num, by norm_num, by norm_num [eps], ?_⟩
  exact C6_price_after_first_deposit (ConstantProductAMM.init (3 / 1000)) 2 3
    rfl rfl (by norm_num) (by norm_num) (by norm_num [eps])

/-- C7: when an agent's action is `remove_liquidity(fA, fB)`, the
environment invokes the AMM's `remove_liquidity` with effective fraction
`min fA fB`, and whenever the AMM returns a pair `(outA, outB)` it adds
`outA * referencePrice + outB` to that agent's reward; in the spec's
scenario — a single scripted agent proposing `removeLiquidity(0.5, 0.5)`
on a pool holding (200, 300) with reference price 1.5 at step 0 — one tick
yields reward 300 and reserves (100, 150). -/
theorem C7_remove_liquidity_reward :
    (∀ (current_price : ℚ) (env : MarketEnvironment) (ag : Agent)
        (fA fB outA outB : ℚ),
      (env.amm.remove_liquidity (min fA fB)).2 = Option.some (outA, outB) →
      (applyAction current_price env (ag, AgentAction.remove_liquidity fA fB)).amm
          = (env.amm.remove_liquidity (min fA fB)).1 ∧
      (applyAction current_price env (ag, AgentAction.remove_liquidity fA fB)).rewards ag.name
          = env.rewards ag.name + (outA * current_price + outB)) ∧
    ((env_c7.step).2 = true ∧
      (env_c7.step).1.rewards ("lp") = 300 ∧
      (env_c7.step).1.amm.reserveA = 100 ∧
      (env_c7.step).1.amm.reserveB = 150) := by
  constructor
  · intro current_price env ag fA fB outA outB h
    rw [applyAction]
    dsimp only
    rw [h]
    exact ⟨rfl, by simp [updateReward]⟩
  · refine ⟨rfl, ?_, ?_, ?_⟩ <;>
      norm_num [env_c7, pool_c7, agent_c7, MarketEnvironment.init,
        MarketEnvironment.step, applyAction, updateReward,
        ConstantProductAMM.init, ConstantProductAMM.add_liquidity,
        ConstantProductAMM.remove_liquidity, eps]

/-- C7 witness: the general reward rule applied at the scenario inputs,
with the AMM returning the concrete pair (100, 150). -/
theorem C7_witness :
    (env_c7.amm.remove_liquidity (min (1 / 2 : ℚ) (1 / 2))).2
        = Option.some (100, 150) ∧
    (applyAction (3 / 2) env_c7
        (agent_c7, AgentAction.remove_liquidity (1 / 2) (1 / 2))).rewards agent_c7.name
      = env_c7.rewards agent_c7.name + (100 * (3 / 2) + 150) := by
  have h : (env_c7.amm.remove_liquidity (min (1 / 2 : ℚ) (1 / 2))).2
      = Option.some (100, 150) := by
    norm_num [env_c7, pool_c7, MarketEnvironment.init, ConstantProductAMM.init,
      ConstantProductAMM.add_liquidity, ConstantProductAMM.remove_liquidity, eps]
  exact ⟨h, (C7_remove_liquidity_reward.1 (3 / 2) env_c7 agent_c7
    (1 / 2) (1 / 2) 100 150 h).2⟩

/-- C9: on a tick where an agent submits a trade with positive amount while
the pool is degenerate (either reserve below epsilon), the swap returns 0
and the pool is unchanged, yet the agent's cumulative reward still falls
by the full cost — by the amount for a buy, by amount times the reference
price for a sell — and the matching aggregate volume counter still grows
by the amount. -/
theorem C9_degenerate_trade_charges_cost (current_price : ℚ)
    (env : MarketEnvironment) (ag : Agent) (direction : String) (amount_in : ℚ)
    (hin : 0 < amount_in)
    (hdeg : env.amm.reserveA < eps ∨ env.amm.reserveB < eps) :
    (env.amm.swap amount_in direction).2 = 0 ∧
    (applyAction current_price env (ag, AgentAction.trade direction amount_in)).amm
        = env.amm ∧
    (direction = "buy" →
      (applyAction current_price env (ag, AgentAction.trade direction amount_in)).rewards ag.name
          = env.rewards ag.name - amount_in ∧
      (applyAction current_price env (ag, AgentAction.trade direction amount_in)).total_volume_tokenB
          = env.total_volume_tokenB + amount_in) ∧
    (direction = "sell" →
      (applyAction current_price env (ag, AgentAction.trade direction amount_in)).rewards ag.name
          = env.rewards ag.name - amount_in * current_price ∧
      (applyAction current_price env (ag, AgentAction.trade direction amount_in)).total_volume_tokenA
          = env.total_volume_tokenA + amount_in) := by
  have hswap : env.amm.swap amount_in direction = (env.amm, 0) :=
    swap_degenerate env.amm amount_in direction (Or.inr hdeg)
  refine ⟨by rw [hswap], ?_, ?_, ?_⟩
  · rw [applyAction]
    dsimp only
    rw [if_pos hin, hswap]
    by_cases hd : direction = "buy"
    · rw [if_pos hd]
    · rw [if_neg hd]
  · intro hd
    subst hd
    rw [applyAction]
    dsimp only
    rw [if_pos hin, hswap, if_pos rfl]
    constructor
    · simp [updateReward]
      ring
    · rfl
  · intro hd
    subst hd
    rw [applyAction]
    dsimp only
    rw [if_pos hin, hswap, if_neg (by decide : ¬ ("sell" : String) = "buy")]
    constructor
    · simp [updateReward]
      ring
    · rfl

/-- C9 witness: a buy of 5 on the freshly constructed (empty) pool leaves
the pool unchanged but costs the trader 5 and adds 5 to token-B volume. -/
theorem C9_witness :
    (0 : ℚ) < 5 ∧ env_c9.amm.reserveA < eps ∧
    (env_c9.amm.swap 5 ("buy")).2 = 0 ∧
    (applyAction 2 env_c9 (agent_c9, AgentAction.trade ("buy") 5)).rewards agent_c9.name
        = env_c9.rewards agent_c9.name - 5 ∧
    (applyAction 2 env_c9 (agent_c9, AgentAction.trade ("buy") 5)).total_volume_tokenB
        = env_c9.total_volume_tokenB + 5 ∧
    (applyAction 2 env_c9 (agent_c9, AgentAction.trade ("sell") 5)).rewards agent_c9.name
        = env_c9.rewards agent_c9.name - 5 * 2 ∧
    (applyAction 2 env_c9 (agent_c9, AgentAction.trade ("sell") 5)).total_volume_tokenA
        = env_c9.total_volume_tokenA + 5 := by
  have hdeg : env_c9.amm.reserveA < eps := by
    norm_num [env_c9, MarketEnvironment.init, ConstantProductAMM.init, eps]
  have h := C9_degenerate_trade_charges_cost 2 env_c9 agent_c9 ("buy") 5
    (by norm_num) (Or.inl hdeg)
  have h' := C9_degenerate_trade_charges_cost 2 env_c9 agent_c9 ("sell") 5
    (by norm_num) (Or.inl hdeg)
  exact ⟨by norm_num, hdeg, h.1, (h.2.2.1 rfl).1, (h.2.2.1 rfl).2,
    (h'.2.2.2 rfl).1, (h'.2.2.2 rfl).2⟩

/-- The reset loop leaves a name untouched when no roster agent carries it. -/
theorem zeroRewards_eq_of_not_mem (agents : List Agent) (r : String → ℚ)
    (n : String) (h : ∀ ag ∈ agents, ag.name ≠ n) :
    zeroRewards agents r n = r n := by
  induction agents generalizing r with
  | nil => rfl
  | cons a as ih =>
    have ha : a.name ≠ n := h a (List.mem_cons_self a as)
    have has : ∀ ag ∈ as, ag.name ≠ n := fun ag hag => h ag (List.mem_cons_of_mem a hag)
    show zeroRewards as (fun m => if m = a.name then 0 else r m) n = r n
    rw [ih _ has]
    exact if_neg fun hn => ha hn.symm

/-- The reset loop zeroes the reward of every roster agent's name. -/
theorem zeroRewards_eq_zero_of_mem (agents : List Agent) (r : String → ℚ)
    (n : String) (h : ∃ ag ∈ agents, ag.name = n) :
    zeroRewards agents r n = 0 := by
  induction agents generalizing r with
  | nil =>
    obtain ⟨ag, hag, _⟩ := h
    exact absurd hag (List.not_mem_nil ag)
  | cons a as ih =>
    by_cases hex : ∃ ag ∈ as, ag.name = n
    · exact ih _ hex
    · obtain ⟨ag, hag, hname⟩ := h
      rcases List.mem_cons.mp hag with heq | hmem
      · subst heq
        push_neg at hex
        show zeroRewards as (fun m => if m = ag.name then 0 else r m) n = 0
        rw [zeroRewards_eq_of_not_mem as _ n hex]
        exact if_pos hname.symm
      · exact absurd ⟨ag, hmem, hname⟩ hex

/-- C10: `reset` sets the step counter to 0, zeroes every roster agent's
reward and both aggregate volume counters, but leaves the held AMM — all
its fields — unchanged; `run_simulation` begins from exactly that reset
state, so it replays on whatever pool state earlier activity left behind
(with no reference prices left, the simulation ends immediately on the
leftover pool). -/
theorem C10_reset_keeps_amm (env : MarketEnvironment) :
    (env.reset).amm = env.amm ∧
    (env.reset).current_step = 0 ∧
    (∀ ag ∈ env.agents, (env.reset).rewards ag.name = 0) ∧
    (env.reset).total_volume_tokenA = 0 ∧
    (env.reset).total_volume_tokenB = 0 ∧
    env.run_simulation = loopSteps (env.reference_prices.length + 1) env.reset ∧
    (env.reference_prices = [] → (env.run_simulation).amm = env.amm) := by
  refine ⟨rfl, rfl, ?_, rfl, rfl, rfl, ?_⟩
  · intro ag hag
    exact zeroRewards_eq_zero_of_mem env.agents env.rewards ag.name ⟨ag, hag, rfl⟩
  · intro hnil
    have hcond : env.reset.reference_prices.length ≤ env.reset.current_step := by
      rw [show env.reset.reference_prices = [] from hnil]
      exact Nat.zero_le _
    have hstep : env.reset.step = (env.reset, false) := by
      rw [MarketEnvironment.step, if_pos hcond]
    rw [MarketEnvironment.run_simulation, hnil]
    simp only [List.length_nil, Nat.zero_add, loopSteps, hstep]
    rfl

/-- C10 witness: on an environment holding a dirty pool with reserves
(50, 70), `reset` keeps the pool, zeroes the roster agent's reward, and
`run_simulation` trades against the leftover reserves (token-B reserve
becomes 79.97), not against a fresh pool. -/
theorem C10_witness :
    (dirtyEnv.reset).amm = dirtyAMM ∧
    dirtyAgent ∈ dirtyEnv.agents ∧
    (dirtyEnv.reset).rewards dirtyAgent.name = 0 ∧
    (dirtyEnv.run_simulation).amm.reserveB = 7997 / 100 ∧
    ((MarketEnvironment.init dirtyAMM [dirtyAgent] []).run_simulation).amm = dirtyAMM := by
  have h := C10_reset_keeps_amm dirtyEnv
  have hmem : dirtyAgent ∈ dirtyEnv.agents := List.mem_singleton_self dirtyAgent
  refine ⟨h.1, hmem, h.2.2.1 dirtyAgent hmem, ?_,
    (C10_reset_keeps_amm (MarketEnvironment.init dirtyAMM [dirtyAgent] [])).2.2.2.2.2.2 rfl⟩
  norm_num [dirtyEnv, dirtyAMM, dirtyAgent, MarketEnvironment.init,
    MarketEnvironment.run_simulation, MarketEnvironment.reset, loopSteps,
    MarketEnvironment.step, applyAction, updateReward, zeroRewards,
    ConstantProductAMM.init, ConstantProductAMM.add_liquidity,
    ConstantProductAMM.swap, ConstantProductAMM.get_price, eps]

/-- C8: `update_q(reward, nextObs, done)` is a no-op (whole policy, Q-table
and pending slots included) when no selection is pending; when a selection
(s, a) is pending, exactly the entry Q[s][a] becomes
`Q[s][a] + alpha * (target - Q[s][a])` with `target = reward` when done and
`target = reward + gamma * max` of the three action-values at the
discretized next observation otherwise, every other table entry is
unchanged, and both pending slots are cleared — hence a second consecutive
`update_q` always leaves the policy exactly as the first left it. -/
theorem C8_update_q_spec (p : SimpleQPolicy) (reward : ℚ) (new_env_state : Obs)
    (done : Bool) :
    (p.last_state = Option.none → p.update_q reward new_env_state done = p) ∧
    (∀ (s : ℕ × ℕ) (a : ℕ),
      p.last_state = Option.some s → p.last_action = Option.some a →
      ((p.update_q reward new_env_state done).q_table s.1 s.2 a
          = p.q_table s.1 s.2 a + p.alpha *
              ((if done then reward
                else reward + p.gamma *
                  max (max (p.q_table (p.discretize_state new_env_state).1
                        (p.discretize_state new_env_state).2 0)
                      (p.q_table (p.discretize_state new_env_state).1
                        (p.discretize_state new_env_state).2 1))
                    (p.q_table (p.discretize_state new_env_state).1
                      (p.discretize_state new_env_state).2 2))
                - p.q_table s.1 s.2 a) ∧
        (∀ i j k : ℕ, ¬ (i = s.1 ∧ j = s.2 ∧ k = a) →
          (p.update_q reward new_env_state done).q_table i j k = p.q_table i j k) ∧
        (p.update_q reward new_env_state done).last_state = Option.none ∧
        (p.update_q reward new_env_state done).last_action = Option.none)) ∧
    (∀ (reward' : ℚ) (obs' : Obs) (done' : Bool),
      (p.update_q reward new_env_state done).update_q reward' obs' done'
        = p.update_q reward new_env_state done) := by
  refine ⟨?_, ?_, ?_⟩
  · intro h
    rw [SimpleQPolicy.update_q, h]
  · intro s a hs ha
    rw [SimpleQPolicy.update_q, hs, ha]
    refine ⟨?_, ?_, rfl, rfl⟩
    · dsimp only [Option.getD]
      rw [if_pos ⟨rfl, rfl, rfl⟩]
    · intro i j k hijk
      dsimp only [Option.getD]
      rw [if_neg hijk]
  · intro reward' obs' done'
    cases hp : p.last_state with
    | none =>
      have h1 : p.update_q reward new_env_state done = p := by
        rw [SimpleQPolicy.update_q, hp]
      rw [h1, SimpleQPolicy.update_q, hp]
    | some s =>
      have h1 : (p.update_q reward new_env_state done).last_state = Option.none := by
        rw [SimpleQPolicy.update_q, hp]
      rw [SimpleQPolicy.update_q, h1]

/-- C8 witness: with a pending selection at state (2, 3), action 1, zero
table, alpha = 0.1 and a terminal update with reward 1, exactly that entry
becomes 0.1, an untouched entry stays 0, the pending slots clear, and a
second consecutive update changes nothing. -/
theorem C8_witness :
    policy_c8.last_state = Option.some (2, 3) ∧
    policy_c8.last_action = Option.some 1 ∧
    (policy_c8.update_q 1 obs_c8 true).q_table 2 3 1 = 1 / 10 ∧
    (policy_c8.update_q 1 obs_c8 true).q_table 0 0 0 = 0 ∧
    (policy_c8.update_q 1 obs_c8 true).last_state = Option.none ∧
    (policy_c8.update_q 1 obs_c8 true).last_action = Option.none ∧
    (policy_c8.update_q 1 obs_c8 true).update_q 0 obs_c8 false
      = policy_c8.update_q 1 obs_c8 true ∧
    (policy_c8.update_q 1 obs_c8 true).update_q 5 obs_c8 true
      = policy_c8.update_q 1 obs_c8 true := by
  have h := C8_update_q_spec policy_c8 1 obs_c8 true
  have h2 := h.2.1 (2, 3) 1 rfl rfl
  refine ⟨rfl, rfl, ?_, ?_, h2.2.2.1, h2.2.2.2, h.2.2 0 obs_c8 false,
    (C8_update_q_spec (policy_c8.update_q 1 obs_c8 true) 5 obs_c8 true).1 h2.2.2.1⟩
  · rw [h2.1]
    norm_num [policy_c8]
  · rw [h2.2.1 0 0 0 (by norm_num)]
    rfl
